import Mathlib

set_option maxHeartbeats 1000000
set_option linter.unusedVariables false
set_option linter.unnecessarySeqFocus false

/-!
Verification development for the two-player rage-detection pipeline
(`src/vision.py`, `src/main.py`).

Modelling conventions:
* Python floats (emotion confidence scores, `time.time()` timestamps) are
  modelled as exact rationals `ℚ`.
* Python dicts are modelled as association lists in key-insertion order;
  `dset` mirrors `d[k] = v` (update the first entry in place, append a new
  key at the end) and `dgetD` mirrors `d.get(k, default)`.
* External calls (DeepFace, the camera, the face detector) are passed in as
  explicit arguments; a call that raises is an `Except.error` value, and the
  `try`/`except` blocks of the source become pattern matches on it.
-/

namespace RageMeter

/-- Python dict assignment `d[k] = v` on an association list: replace the
first entry holding key `k` in place, or append `(k, v)` when `k` is absent. -/
def dset {β : Type} : List (String × β) → String → β → List (String × β)
  | [], k, v => [(k, v)]
  | p :: rest, k, v => if p.1 = k then (k, v) :: rest else p :: dset rest k v

/-- Python `d.get(k, v0)`: value of the first entry holding key `k`,
default `v0` when `k` is absent. -/
def dgetD {β : Type} : List (String × β) → String → β → β
  | [], _, v0 => v0
  | p :: rest, k, v0 => if p.1 = k then p.2 else dgetD rest k v0

/-- The keys of an association list, in order. -/
def dkeys {β : Type} (d : List (String × β)) : List String := d.map Prod.fst

theorem dgetD_dset_self {β : Type} (d : List (String × β)) (k : String) (v w : β) :
    dgetD (dset d k v) k w = v := by
  induction d with
  | nil => simp [dset, dgetD]
  | cons p rest ih =>
    by_cases h : p.1 = k
    · simp [dset, dgetD, h]
    · simp [dset, dgetD, h, ih]

theorem dgetD_dset_ne {β : Type} (d : List (String × β)) (k k2 : String) (v w : β)
    (hne : k2 ≠ k) : dgetD (dset d k v) k2 w = dgetD d k2 w := by
  have hk : ¬(k = k2) := fun he => hne he.symm
  induction d with
  | nil => simp [dset, dgetD, hk]
  | cons p rest ih =>
    by_cases h : p.1 = k
    · have hp : ¬(p.1 = k2) := by rw [h]; exact hk
      simp [dset, dgetD, h, hk, hp]
    · by_cases h2 : p.1 = k2
      · simp [dset, dgetD, h, h2, hk, hne]
      · simp [dset, dgetD, h, h2, ih]

theorem mem_dkeys_dset {β : Type} (d : List (String × β)) (k x : String) (v : β) :
    x ∈ dkeys (dset d k v) ↔ x ∈ dkeys d ∨ x = k := by
  induction d with
  | nil => simp [dset, dkeys]
  | cons p rest ih =>
    by_cases h : p.1 = k
    · subst h
      simp [dset, dkeys]
      tauto
    · simp [dset, dkeys, h] at *
      tauto

theorem dkeys_nodup_dset {β : Type} (d : List (String × β)) (k : String) (v : β)
    (hd : (dkeys d).Nodup) : (dkeys (dset d k v)).Nodup := by
  induction d with
  | nil => simp [dset, dkeys]
  | cons p rest ih =>
    by_cases h : p.1 = k
    · subst h
      simpa [dset, dkeys] using hd
    · simp only [dkeys, List.map_cons, List.nodup_cons] at hd
      have h1 := ih hd.2
      simp only [dset, if_neg h, dkeys, List.map_cons, List.nodup_cons]
      refine ⟨?_, h1⟩
      intro hmem
      rcases (mem_dkeys_dset rest k p.1 v).1 hmem with h2 | h2
      · exact hd.1 h2
      · exact h h2

/-- A key-value pair present in a list with no duplicate keys determines the
looked-up value. -/
theorem dgetD_of_mem {β : Type} (d : List (String × β)) (k : String) (v w : β)
    (hmem : (k, v) ∈ d) (hd : (dkeys d).Nodup) : dgetD d k w = v := by
  induction d with
  | nil => simp at hmem
  | cons p rest ih =>
    simp only [dkeys, List.map_cons, List.nodup_cons] at hd
    rcases List.mem_cons.1 hmem with h | h
    · subst h
      simp [dgetD]
    · have hk : p.1 ≠ k := by
        intro he
        exact hd.1 (he ▸ (by simpa [dkeys] using List.mem_map_of_mem Prod.fst h))
      simp [dgetD, hk, ih h hd.2]

/-! ## EmotionSmoother (src/vision.py, lines 13-88) -/

/-- Python `max(xs, key=key)` scanning a list from a current best element:
a later element replaces the best only when its key is strictly greater, so
ties go to the earliest element scanned. -/
def pyMaxBy {α : Type} (key : α → Nat) : α → List α → α
  | cur, [] => cur
  | cur, x :: xs => if key cur < key x then pyMaxBy key x xs else pyMaxBy key cur xs

/-- The loop of `smooth_emotion` that builds the `emotion_counts` dict:
for each label of the window, in order, bump its entry by one. -/
def countsLoop : List String → List (String × Nat) → List (String × Nat)
  | [], acc => acc
  | e :: rest, acc => countsLoop rest (dset acc e (dgetD acc e 0 + 1))

/-- The `emotion_counts` dict of `EmotionSmoother.smooth_emotion`, as an
association list in key-insertion order (which is first-occurrence order). -/
def emotion_counts (h : List String) : List (String × Nat) :=
  countsLoop h []

/-- Appending to a `deque(maxlen=maxlen)`: the oldest entries are dropped
from the front once the capacity is exceeded. -/
def dequeAppend (maxlen : Nat) (l : List String) (e : String) : List String :=
  let l2 := l ++ [e]
  if maxlen < l2.length then l2.drop (l2.length - maxlen) else l2

/-- Decidable check that `order` enumerates exactly the distinct elements of
`h`: this is all Python guarantees about iterating `set(h)` (the actual
order is hash-dependent, so the embedding keeps it abstract). -/
def isSetEnum (h order : List String) : Bool :=
  decide order.Nodup && h.all (fun e => order.contains e) && order.all (fun e => h.contains e)

/-- One call of `EmotionSmoother.smooth_emotion` (vision.py lines 31-65).
`setEnum` supplies, for the post-append history, the order in which the
runtime iterates `set(history)`; it is only consulted on the short-history
path.  Returns the smoothed label together with the updated history.  The
two fallback branches marked unreachable correspond to states the deque is
never in when `window_size > 0` (the freshly appended label is present);
on the second one Python would raise `ValueError` from `max([])`. -/
def smooth_emotion (setEnum : List String → List String)
    (confidence_threshold window_size : Nat)
    (new_emotion : String) (history : List String) (current_emotion : String) :
    String × List String :=
  let h := dequeAppend window_size history new_emotion
  if h.length < confidence_threshold then
    (if 0 < h.length then
      match setEnum h with
      | [] => new_emotion      -- unreachable for a valid enumeration of a non-empty history
      | x :: xs => pyMaxBy (fun e => h.count e) x xs
     else new_emotion, h)
  else
    match emotion_counts h with
    | [] => (current_emotion, h)   -- unreachable when `window_size > 0`
    | p :: rest =>
      let most_common := pyMaxBy (fun q => q.2) p rest
      if confidence_threshold ≤ most_common.2 then (most_common.1, h)
      else (current_emotion, h)

/-- The mutable state of an `EmotionSmoother` instance. -/
structure SmootherState where
  window_size : Nat
  confidence_threshold : Nat
  left_history : List String
  right_history : List String
  left_current : String
  right_current : String
deriving DecidableEq

/-- `EmotionSmoother.update` (vision.py lines 67-84): smooth both channels
and store the results back into the instance. -/
def EmotionSmoother.update (setEnum : List String → List String)
    (s : SmootherState) (left_emotion right_emotion : String) :
    (String × String) × SmootherState :=
  let lres := smooth_emotion setEnum s.confidence_threshold s.window_size
    left_emotion s.left_history s.left_current
  let rres := smooth_emotion setEnum s.confidence_threshold s.window_size
    right_emotion s.right_history s.right_current
  ((lres.1, rres.1),
   { s with left_history := lres.2, right_history := rres.2,
            left_current := lres.1, right_current := rres.1 })

/-- The module-level
`_emotion_smoother = EmotionSmoother(window_size=7, confidence_threshold=4)`. -/
def emotion_smoother_init : SmootherState :=
  ⟨7, 4, [], [], "unknown", "unknown"⟩

theorem pyMaxBy_eq_or_mem {α : Type} (key : α → Nat) (cur : α) (xs : List α) :
    pyMaxBy key cur xs = cur ∨ pyMaxBy key cur xs ∈ xs := by
  induction xs generalizing cur with
  | nil => simp [pyMaxBy]
  | cons x xs ih =>
    simp only [pyMaxBy]
    by_cases h : key cur < key x
    · rw [if_pos h]
      rcases ih x with h2 | h2
      · right; simp [h2]
      · right; simp [h2]
    · rw [if_neg h]
      rcases ih cur with h2 | h2
      · left; exact h2
      · right; simp [h2]

theorem le_pyMaxBy_self {α : Type} (key : α → Nat) (cur : α) (xs : List α) :
    key cur ≤ key (pyMaxBy key cur xs) := by
  induction xs generalizing cur with
  | nil => simp [pyMaxBy]
  | cons x xs ih =>
    simp only [pyMaxBy]
    by_cases h : key cur < key x
    · rw [if_pos h]
      exact le_of_lt (lt_of_lt_of_le h (ih x))
    · rw [if_neg h]
      exact ih cur

theorem le_pyMaxBy_mem {α : Type} (key : α → Nat) (cur : α) (xs : List α)
    (x : α) (hx : x ∈ xs) : key x ≤ key (pyMaxBy key cur xs) := by
  induction xs generalizing cur with
  | nil => simp at hx
  | cons y ys ih =>
    simp only [pyMaxBy]
    rcases List.mem_cons.1 hx with h1 | h1
    · subst h1
      by_cases h : key cur < key x
      · rw [if_pos h]; exact le_pyMaxBy_self key x ys
      · rw [if_neg h]
        exact le_trans (le_of_not_lt h) (le_pyMaxBy_self key cur ys)
    · by_cases h : key cur < key y
      · rw [if_pos h]; exact ih y h1
      · rw [if_neg h]; exact ih cur h1

theorem countsLoop_get (h : List String) : ∀ (acc : List (String × Nat)) (e : String),
    dgetD (countsLoop h acc) e 0 = dgetD acc e 0 + h.count e := by
  induction h with
  | nil => intro acc e; simp [countsLoop]
  | cons a t ih =>
    intro acc e
    simp only [countsLoop]
    rw [ih]
    by_cases he : e = a
    · subst he
      rw [dgetD_dset_self, List.count_cons_self]
      omega
    · rw [dgetD_dset_ne _ _ _ _ _ he, List.count_cons_of_ne he]

theorem mem_dkeys_countsLoop (h : List String) : ∀ (acc : List (String × Nat)) (x : String),
    x ∈ dkeys (countsLoop h acc) ↔ x ∈ dkeys acc ∨ x ∈ h := by
  induction h with
  | nil => intro acc x; simp [countsLoop]
  | cons a t ih =>
    intro acc x
    simp only [countsLoop]
    rw [ih]
    rw [mem_dkeys_dset]
    simp only [List.mem_cons]
    tauto

theorem nodup_countsLoop (h : List String) : ∀ (acc : List (String × Nat)),
    (dkeys acc).Nodup → (dkeys (countsLoop h acc)).Nodup := by
  induction h with
  | nil => intro acc hacc; simpa [countsLoop] using hacc
  | cons a t ih =>
    intro acc hacc
    simp only [countsLoop]
    exact ih _ (dkeys_nodup_dset acc a _ hacc)

theorem dgetD_emotion_counts (h : List String) (e : String) :
    dgetD (emotion_counts h) e 0 = h.count e := by
  have := countsLoop_get h [] e
  simpa [emotion_counts, dgetD] using this

theorem mem_dkeys_emotion_counts (h : List String) (x : String) :
    x ∈ dkeys (emotion_counts h) ↔ x ∈ h := by
  have := mem_dkeys_countsLoop h [] x
  simpa [emotion_counts, dkeys] using this

theorem nodup_emotion_counts (h : List String) : (dkeys (emotion_counts h)).Nodup :=
  nodup_countsLoop h [] (by simp [dkeys])

theorem snd_of_mem_emotion_counts (h : List String) (p : String × Nat)
    (hp : p ∈ emotion_counts h) : p.2 = h.count p.1 := by
  have h1 : dgetD (emotion_counts h) p.1 0 = p.2 := by
    have : (p.1, p.2) ∈ emotion_counts h := by simpa using hp
    exact dgetD_of_mem _ _ _ _ this (nodup_emotion_counts h)
  rw [← h1, dgetD_emotion_counts]

theorem emotion_counts_ne_nil (h : List String) (hne : h ≠ []) :
    emotion_counts h ≠ [] := by
  rcases List.exists_mem_of_ne_nil h hne with ⟨x, hx⟩
  intro hcontra
  have := (mem_dkeys_emotion_counts h x).2 hx
  rw [hcontra] at this
  simp [dkeys] at this

theorem dequeAppend_length (maxlen : Nat) (l : List String) (e : String) :
    (dequeAppend maxlen l e).length =
      if maxlen < l.length + 1 then maxlen else l.length + 1 := by
  simp only [dequeAppend, List.length_append, List.length_cons, List.length_nil]
  split_ifs with h1
  · rw [List.length_drop]
    simp only [List.length_append, List.length_cons, List.length_nil]
    omega
  · simp

theorem dequeAppend_ne_nil (maxlen : Nat) (l : List String) (e : String)
    (hm : 0 < maxlen) : dequeAppend maxlen l e ≠ [] := by
  intro hcontra
  have := dequeAppend_length maxlen l e
  rw [hcontra] at this
  simp only [List.length_nil] at this
  split_ifs at this <;> omega

/-- C3: when the stored history already holds at least `confidence_threshold`
labels, `smooth_emotion` appends the new raw label to the window (evicting
the oldest if the window is full), counts occurrences over the stored
window, and returns a label of maximal count when that count reaches the
threshold, otherwise the previously stable label unchanged. -/
theorem C3_smoother_full_window (setEnum : List String → List String)
    (confidence_threshold window_size : Nat)
    (history : List String) (current_emotion new_emotion : String)
    (hwin : 0 < window_size)
    (hlen : confidence_threshold ≤ history.length)
    (hcap : history.length ≤ window_size) :
    (smooth_emotion setEnum confidence_threshold window_size
        new_emotion history current_emotion).2 =
      dequeAppend window_size history new_emotion ∧
    ∃ lbl cnt,
      (dequeAppend window_size history new_emotion).count lbl = cnt ∧
      (∀ e ∈ dequeAppend window_size history new_emotion,
        (dequeAppend window_size history new_emotion).count e ≤ cnt) ∧
      (smooth_emotion setEnum confidence_threshold window_size
          new_emotion history current_emotion).1 =
        if confidence_threshold ≤ cnt then lbl else current_emotion := by
  set h := dequeAppend window_size history new_emotion with hh
  have hlen3 : h.length = if window_size < history.length + 1 then window_size
      else history.length + 1 := dequeAppend_length _ _ _
  have hfull : ¬(h.length < confidence_threshold) := by
    rw [hlen3]; split_ifs <;> omega
  have hne : h ≠ [] := dequeAppend_ne_nil _ _ _ hwin
  obtain ⟨p, rest, hpr⟩ : ∃ p rest, emotion_counts h = p :: rest := by
    cases hec : emotion_counts h with
    | nil => exact absurd hec (emotion_counts_ne_nil h hne)
    | cons p rest => exact ⟨p, rest, rfl⟩
  have hmc_mem : pyMaxBy (fun q => q.2) p rest ∈ emotion_counts h := by
    rw [hpr]
    rcases pyMaxBy_eq_or_mem (fun q => q.2) p rest with h1 | h1
    · rw [h1]; exact List.mem_cons_self _ _
    · exact List.mem_cons_of_mem _ h1
  have hmc_cnt : (pyMaxBy (fun q => q.2) p rest).2 =
      h.count (pyMaxBy (fun q => q.2) p rest).1 :=
    snd_of_mem_emotion_counts h _ hmc_mem
  have hmax : ∀ e ∈ h, h.count e ≤ (pyMaxBy (fun q => q.2) p rest).2 := by
    intro e he
    have hek : e ∈ dkeys (emotion_counts h) := (mem_dkeys_emotion_counts h e).2 he
    obtain ⟨q, hq, hq1⟩ : ∃ q ∈ emotion_counts h, q.1 = e := by
      simpa [dkeys] using hek
    have hq2 : q.2 = h.count e := by rw [snd_of_mem_emotion_counts h q hq, hq1]
    rw [← hq2]
    rw [hpr] at hq
    rcases List.mem_cons.1 hq with h1 | h1
    · rw [h1]; exact le_pyMaxBy_self (fun q => q.2) p rest
    · exact le_pyMaxBy_mem (fun q => q.2) p rest q h1
  have hsmooth : smooth_emotion setEnum confidence_threshold window_size
      new_emotion history current_emotion =
      (if confidence_threshold ≤ (pyMaxBy (fun q => q.2) p rest).2
        then (pyMaxBy (fun q => q.2) p rest).1 else current_emotion, h) := by
    rw [smooth_emotion]
    simp only [← hh, if_neg hfull, hpr]
    split_ifs <;> rfl
  refine ⟨by rw [hsmooth], (pyMaxBy (fun q => q.2) p rest).1,
    (pyMaxBy (fun q => q.2) p rest).2, hmc_cnt.symm, hmax, ?_⟩
  rw [hsmooth]

/-- Witness for C3 at a concrete full window: four of five labels are
`angry`, so with threshold 4 the smoother adopts `angry`. -/
theorem C3_smoother_full_window_witness :
    (smooth_emotion (fun l => l) 4 7
        "happy" ["angry", "angry", "angry", "angry"] "neutral").2 =
      dequeAppend 7 ["angry", "angry", "angry", "angry"] "happy" ∧
    ∃ lbl cnt,
      (dequeAppend 7 ["angry", "angry", "angry", "angry"] "happy").count lbl = cnt ∧
      (∀ e ∈ dequeAppend 7 ["angry", "angry", "angry", "angry"] "happy",
        (dequeAppend 7 ["angry", "angry", "angry", "angry"] "happy").count e ≤ cnt) ∧
      (smooth_emotion (fun l => l) 4 7
          "happy" ["angry", "angry", "angry", "angry"] "neutral").1 =
        if 4 ≤ cnt then lbl else "neutral" :=
  C3_smoother_full_window (fun l => l) 4 7 ["angry", "angry", "angry", "angry"]
    "neutral" "happy" (by decide) (by decide) (by decide)

/-- C8 counterexample: the short-history tie-break is NOT first-seen
insertion order.  The history (after appending) is `["happy", "angry"]`,
a tie; the claim demands the first-seen label `"happy"`, but under the
perfectly valid set-iteration order `["angry", "happy"]` (Python set order
is hash-dependent) the code returns `"angry"`. -/
theorem C8_counterexample_tiebreak :
    isSetEnum (dequeAppend 7 ["happy"] "angry") ["angry", "happy"] = true ∧
    (smooth_emotion (fun _ => ["angry", "happy"]) 4 7
        "angry" ["happy"] "unknown").1 = "angry" ∧
    ("angry" : String) ≠ "happy" := by
  decide

/-- C8 amended: for histories shorter than the confidence threshold,
`smooth_emotion` returns a mode (a label of maximal count) of the labels
seen so far; the tie-break among equally frequent labels follows the
runtime's iteration order of `set(history)`, which is hash-dependent and
not guaranteed to be first-seen insertion order. -/
theorem C8_amended_partial_mode (setEnum : List String → List String)
    (confidence_threshold window_size : Nat)
    (history : List String) (current_emotion new_emotion : String)
    (hwin : 0 < window_size)
    (hshort : (dequeAppend window_size history new_emotion).length < confidence_threshold)
    (henum : isSetEnum (dequeAppend window_size history new_emotion)
      (setEnum (dequeAppend window_size history new_emotion)) = true) :
    (smooth_emotion setEnum confidence_threshold window_size
        new_emotion history current_emotion).1 ∈
      dequeAppend window_size history new_emotion ∧
    ∀ e ∈ dequeAppend window_size history new_emotion,
      (dequeAppend window_size history new_emotion).count e ≤
        (dequeAppend window_size history new_emotion).count
          (smooth_emotion setEnum confidence_threshold window_size
            new_emotion history current_emotion).1 := by
  set h := dequeAppend window_size history new_emotion with hh
  have hne : h ≠ [] := dequeAppend_ne_nil _ _ _ hwin
  have hpos : 0 < h.length := List.length_pos.2 hne
  simp only [isSetEnum, Bool.and_eq_true, decide_eq_true_eq, List.all_eq_true] at henum
  obtain ⟨⟨hnodup, hsub1⟩, hsub2⟩ := henum
  have hmem1 : ∀ e ∈ h, e ∈ setEnum h := by
    intro e he
    have := hsub1 e he
    simpa [List.contains] using this
  have hmem2 : ∀ e ∈ setEnum h, e ∈ h := by
    intro e he
    have := hsub2 e he
    simpa [List.contains] using this
  obtain ⟨x0, hx0⟩ := List.exists_mem_of_ne_nil h hne
  obtain ⟨o, os, hoos⟩ : ∃ o os, setEnum h = o :: os := by
    cases hoc : setEnum h with
    | nil =>
      exfalso
      have := hmem1 x0 hx0
      rw [hoc] at this
      simp at this
    | cons o os => exact ⟨o, os, rfl⟩
  have hres : (smooth_emotion setEnum confidence_threshold window_size
      new_emotion history current_emotion).1 =
      pyMaxBy (fun e => h.count e) o os := by
    rw [smooth_emotion]
    simp only [← hh, if_pos hshort, if_pos hpos, hoos]
  rw [hres]
  constructor
  · rcases pyMaxBy_eq_or_mem (fun e => h.count e) o os with h1 | h1
    · rw [h1]
      exact hmem2 o (by rw [hoos]; exact List.mem_cons_self _ _)
    · exact hmem2 _ (by rw [hoos]; exact List.mem_cons_of_mem _ h1)
  · intro e he
    have heo : e ∈ o :: os := by rw [← hoos]; exact hmem1 e he
    rcases List.mem_cons.1 heo with h1 | h1
    · rw [h1]; exact le_pyMaxBy_self (fun e => h.count e) o os
    · exact le_pyMaxBy_mem (fun e => h.count e) o os e h1

/-- Witness for the amended C8 at a concrete short history. -/
theorem C8_amended_partial_mode_witness :
    (smooth_emotion (fun _ => ["angry", "happy"]) 4 7
        "angry" ["happy"] "unknown").1 ∈ dequeAppend 7 ["happy"] "angry" ∧
    ∀ e ∈ dequeAppend 7 ["happy"] "angry",
      (dequeAppend 7 ["happy"] "angry").count e ≤
        (dequeAppend 7 ["happy"] "angry").count
          (smooth_emotion (fun _ => ["angry", "happy"]) 4 7
            "angry" ["happy"] "unknown").1 :=
  C8_amended_partial_mode (fun _ => ["angry", "happy"]) 4 7 ["happy"]
    "unknown" "angry" (by decide) (by decide) (by decide)

/-! ## BaselineCalibrator (src/vision.py, lines 91-175) -/

/-- One entry of `calibration_samples`: the left and right raw emotion-score
dicts (either may be `None`). -/
structure CalibSample where
  left : Option (List (String × ℚ))
  right : Option (List (String × ℚ))
deriving DecidableEq

/-- The mutable state of the `BaselineCalibrator` instance. -/
structure CalibState where
  left_baseline : Option (List (String × ℚ))
  right_baseline : Option (List (String × ℚ))
  calibrated : Bool
  calibration_samples : List CalibSample
  samples_needed : Nat
deriving DecidableEq

/-- The module-level `_baseline_calibrator = BaselineCalibrator()`. -/
def baseline_calibrator_init : CalibState := ⟨none, none, false, [], 10⟩

/-- Python truthiness of an optional dict: `None` and `{}` are falsy. -/
def truthyD (o : Option (List (String × ℚ))) : Bool :=
  match o with
  | none => false
  | some d => !d.isEmpty

/-- `BaselineCalibrator.add_calibration_sample`. -/
def add_calibration_sample (s : CalibState) (left_emotion_scores : List (String × ℚ))
    (right_emotion_scores : Option (List (String × ℚ))) : CalibState :=
  { s with calibration_samples :=
      s.calibration_samples ++ [⟨some left_emotion_scores, right_emotion_scores⟩] }

/-- The accumulation loop
`for emotion, score in d.items(): avg[emotion] = avg.get(emotion, 0) + score`. -/
def sumInto (acc : List (String × ℚ)) (d : List (String × ℚ)) : List (String × ℚ) :=
  d.foldl (fun a p => dset a p.1 (dgetD a p.1 0 + p.2)) acc

/-- `BaselineCalibrator.calculate_baseline` (vision.py lines 117-149).
Returns the Python return value and the updated state.  Note the source
divides the left accumulator by the number of ALL samples but the right
accumulator by the number of samples with a truthy right dict. -/
def calculate_baseline (s : CalibState) : Bool × CalibState :=
  if s.calibration_samples.length < s.samples_needed then (false, s)
  else
    let num_samples : ℚ := s.calibration_samples.length
    let left_avg := s.calibration_samples.foldl
      (fun acc sample =>
        if truthyD sample.left then sumInto acc (sample.left.getD []) else acc) []
    let left_baseline := left_avg.map (fun p => (p.1, p.2 / num_samples))
    let right_samples := s.calibration_samples.filter (fun sample => truthyD sample.right)
    let right_baseline : Option (List (String × ℚ)) :=
      if !right_samples.isEmpty then
        let right_avg := right_samples.foldl
          (fun acc sample => sumInto acc (sample.right.getD [])) []
        let num_right_samples : ℚ := right_samples.length
        some (right_avg.map (fun p => (p.1, p.2 / num_right_samples)))
      else none
    (true, { s with left_baseline := some left_baseline,
                    right_baseline := right_baseline, calibrated := true })

/-- `BaselineCalibrator.reset` (vision.py lines 151-156). -/
def BaselineCalibrator.reset (s : CalibState) : CalibState :=
  { s with left_baseline := none, right_baseline := none,
           calibrated := false, calibration_samples := [] }

/-- `BaselineCalibrator.get_baseline` (vision.py lines 158-171). -/
def get_baseline (s : CalibState) (player : String) : Option (List (String × ℚ)) :=
  if player = "left" then s.left_baseline else s.right_baseline

/-- Sum of one emotion channel over the left dicts of a sample list
(a missing channel or a missing dict contributes zero). -/
def left_channel_sum (samples : List CalibSample) (k : String) : ℚ :=
  (samples.map (fun smp => dgetD (smp.left.getD []) k 0)).sum

/-- Sum of one emotion channel over the right dicts of a sample list. -/
def right_channel_sum (samples : List CalibSample) (k : String) : ℚ :=
  (samples.map (fun smp => dgetD (smp.right.getD []) k 0)).sum

theorem dgetD_not_mem {β : Type} (d : List (String × β)) (k : String) (w : β)
    (hk : k ∉ dkeys d) : dgetD d k w = w := by
  induction d with
  | nil => simp [dgetD]
  | cons p rest ih =>
    simp only [dkeys, List.map_cons, List.mem_cons] at hk
    push_neg at hk
    have h1 : ¬(p.1 = k) := fun he => hk.1 he.symm
    simp only [dgetD, if_neg h1]
    exact ih (by simpa [dkeys] using hk.2)

theorem dgetD_sumInto (d : List (String × ℚ)) (hd : (dkeys d).Nodup) :
    ∀ (acc : List (String × ℚ)) (k : String),
      dgetD (sumInto acc d) k 0 = dgetD acc k 0 + dgetD d k 0 := by
  induction d with
  | nil => intro acc k; simp [sumInto, dgetD]
  | cons p rest ih =>
    intro acc k
    simp only [dkeys, List.map_cons, List.nodup_cons] at hd
    simp only [sumInto, List.foldl_cons] at *
    rw [ih hd.2]
    by_cases he : k = p.1
    · subst he
      rw [dgetD_dset_self]
      have h0 : dgetD rest p.1 0 = 0 :=
        dgetD_not_mem rest p.1 0 (by simpa [dkeys] using hd.1)
      simp [dgetD, h0]
    · rw [dgetD_dset_ne _ _ _ _ _ he]
      have h1 : ¬(p.1 = k) := fun h2 => he h2.symm
      simp [dgetD, if_neg h1]

theorem truthyD_false_getD (o : Option (List (String × ℚ))) (h : truthyD o = false) :
    o.getD [] = [] := by
  cases o with
  | none => rfl
  | some d =>
    simp only [truthyD, Bool.not_eq_false'] at h
    simpa [Option.getD] using List.isEmpty_iff.1 h

theorem dgetD_left_accum (samples : List CalibSample)
    (hWF : ∀ smp ∈ samples, (dkeys (smp.left.getD [])).Nodup) :
    ∀ (acc : List (String × ℚ)) (k : String),
      dgetD (samples.foldl
        (fun acc sample =>
          if truthyD sample.left then sumInto acc (sample.left.getD []) else acc) acc) k 0
      = dgetD acc k 0 + left_channel_sum samples k := by
  induction samples with
  | nil => intro acc k; simp [left_channel_sum]
  | cons smp rest ih =>
    intro acc k
    have hWFr : ∀ x ∈ rest, (dkeys (x.left.getD [])).Nodup :=
      fun x hx => hWF x (List.mem_cons_of_mem _ hx)
    simp only [List.foldl_cons]
    by_cases ht : truthyD smp.left
    · rw [if_pos ht, ih hWFr,
        dgetD_sumInto _ (hWF smp (List.mem_cons_self _ _)) acc k]
      simp [left_channel_sum]
      ring
    · rw [if_neg ht, ih hWFr]
      have h0 : dgetD (smp.left.getD []) k 0 = 0 := by
        rw [truthyD_false_getD smp.left (Bool.eq_false_iff.2 ht)]
        rfl
      simp [left_channel_sum, h0]

theorem dgetD_right_accum (samples : List CalibSample)
    (hWF : ∀ smp ∈ samples, (dkeys (smp.right.getD [])).Nodup) :
    ∀ (acc : List (String × ℚ)) (k : String),
      dgetD (samples.foldl
        (fun acc sample => sumInto acc (sample.right.getD [])) acc) k 0
      = dgetD acc k 0 + right_channel_sum samples k := by
  induction samples with
  | nil => intro acc k; simp [right_channel_sum]
  | cons smp rest ih =>
    intro acc k
    simp only [List.foldl_cons]
    rw [ih (fun x hx => hWF x (List.mem_cons_of_mem _ hx)),
      dgetD_sumInto _ (hWF smp (List.mem_cons_self _ _)) acc k]
    simp [right_channel_sum]
    ring

theorem dgetD_map_div (d : List (String × ℚ)) (c : ℚ) (k : String) :
    dgetD (d.map (fun p => (p.1, p.2 / c))) k 0 = dgetD d k 0 / c := by
  induction d with
  | nil => simp [dgetD]
  | cons p rest ih =>
    by_cases h : p.1 = k
    · simp [dgetD, h]
    · simp [dgetD, h, ih]

/-- C5: `calculate_baseline` returns `False` and changes nothing while fewer
than `samples_needed` samples are collected; once that many are collected it
returns `True`, sets `calibrated`, and sets each player's baseline to the
per-channel arithmetic mean of the collected samples (for the right player
under the natural condition that every sample carries a right dict, since
the source divides the right accumulator by the number of such samples);
`reset` clears the calibrated flag, the sample buffer and both baselines.
The dict well-formedness hypothesis (no duplicate keys) is guaranteed by
Python dicts. -/
theorem C5_calibrator (s : CalibState)
    (hpos : 0 < s.samples_needed)
    (hWF : ∀ smp ∈ s.calibration_samples,
      (dkeys (smp.left.getD [])).Nodup ∧ (dkeys (smp.right.getD [])).Nodup) :
    (s.calibration_samples.length < s.samples_needed →
      calculate_baseline s = (false, s)) ∧
    (s.samples_needed ≤ s.calibration_samples.length →
      (calculate_baseline s).1 = true ∧
      (calculate_baseline s).2.calibrated = true ∧
      ((calculate_baseline s).2.left_baseline).isSome = true ∧
      (∀ k, dgetD (((calculate_baseline s).2.left_baseline).getD []) k 0 =
        left_channel_sum s.calibration_samples k / (s.calibration_samples.length : ℚ)) ∧
      ((∀ smp ∈ s.calibration_samples, truthyD smp.right = true) →
        ((calculate_baseline s).2.right_baseline).isSome = true ∧
        ∀ k, dgetD (((calculate_baseline s).2.right_baseline).getD []) k 0 =
          right_channel_sum s.calibration_samples k / (s.calibration_samples.length : ℚ))) ∧
    ((BaselineCalibrator.reset s).calibrated = false ∧
      (BaselineCalibrator.reset s).calibration_samples = [] ∧
      (BaselineCalibrator.reset s).left_baseline = none ∧
      (BaselineCalibrator.reset s).right_baseline = none ∧
      (BaselineCalibrator.reset s).samples_needed = s.samples_needed) := by
  have hWFl : ∀ smp ∈ s.calibration_samples, (dkeys (smp.left.getD [])).Nodup :=
    fun smp hs => (hWF smp hs).1
  have hWFr : ∀ smp ∈ s.calibration_samples, (dkeys (smp.right.getD [])).Nodup :=
    fun smp hs => (hWF smp hs).2
  refine ⟨?_, ?_, ?_⟩
  · intro hlt
    simp only [calculate_baseline, if_pos hlt]
  · intro hge
    have hnlt : ¬(s.calibration_samples.length < s.samples_needed) := not_lt.2 hge
    have hlen : 0 < s.calibration_samples.length := lt_of_lt_of_le hpos hge
    refine ⟨?_, ?_, ?_, ?_, ?_⟩
    · simp only [calculate_baseline, if_neg hnlt]
    · simp only [calculate_baseline, if_neg hnlt]
    · simp only [calculate_baseline, if_neg hnlt, Option.isSome_some]
    · intro k
      simp only [calculate_baseline, if_neg hnlt, Option.getD_some]
      rw [dgetD_map_div, dgetD_left_accum s.calibration_samples hWFl [] k]
      simp [dgetD]
    · intro htr
      have hfe : s.calibration_samples.filter (fun sample => truthyD sample.right) =
          s.calibration_samples := List.filter_eq_self.2 htr
      have hne2 : s.calibration_samples.isEmpty = false := by
        cases hc : s.calibration_samples with
        | nil => rw [hc] at hlen; simp at hlen
        | cons a t => simp
      constructor
      · simp only [calculate_baseline, if_neg hnlt, hfe, hne2, Bool.not_false,
          if_true, Option.isSome_some]
      · intro k
        simp only [calculate_baseline, if_neg hnlt, hfe, hne2, Bool.not_false,
          if_true, Option.getD_some]
        rw [dgetD_map_div, dgetD_right_accum s.calibration_samples hWFr [] k]
        simp [dgetD]
  · exact ⟨rfl, rfl, rfl, rfl, rfl⟩

/-- A concrete calibrator state holding ten identical samples. -/
def calib_ten_sample_state : CalibState :=
  ⟨none, none, false,
    List.replicate 10 ⟨some [("angry", 2)], some [("angry", 4)]⟩, 10⟩

/-- Witness for C5: on ten samples with left angry score 2 and right angry
score 4, calibration succeeds and the baselines hold the means 2 and 4. -/
theorem C5_calibrator_witness :
    (calculate_baseline calib_ten_sample_state).1 = true ∧
    (calculate_baseline calib_ten_sample_state).2.calibrated = true ∧
    dgetD (((calculate_baseline calib_ten_sample_state).2.left_baseline).getD []) "angry" 0 =
      left_channel_sum calib_ten_sample_state.calibration_samples "angry" /
        (calib_ten_sample_state.calibration_samples.length : ℚ) ∧
    dgetD (((calculate_baseline calib_ten_sample_state).2.right_baseline).getD []) "angry" 0 =
      right_channel_sum calib_ten_sample_state.calibration_samples "angry" /
        (calib_ten_sample_state.calibration_samples.length : ℚ) ∧
    (BaselineCalibrator.reset calib_ten_sample_state).calibrated = false ∧
    (BaselineCalibrator.reset calib_ten_sample_state).calibration_samples = [] := by
  have h := C5_calibrator calib_ten_sample_state (by decide) (by decide)
  have h2 := h.2.1 (by decide)
  have h3 := h2.2.2.2.2 (by decide)
  exact ⟨h2.1, h2.2.1, h2.2.2.2.1 "angry", h3.2 "angry", h.2.2.1, h.2.2.2.1⟩

/-! ## analyze_face_emotion (src/vision.py, lines 337-485) -/

/-- Result of a `DeepFace.analyze` call restricted to the emotion action:
the per-emotion score dict and the dominant emotion label. -/
structure DFRes where
  emotion : List (String × ℚ)
  dominant_emotion : String
deriving DecidableEq

/-- A face bounding box `(x, y, w, h)`. -/
abbrev Box := ℤ × ℤ × ℤ × ℤ

/-- The padded region-of-interest extraction shared by
`analyze_face_emotion` and `get_raw_emotion_scores`: `face_roi.size == 0`
exactly when the clamped slice is empty in either direction, for a frame of
width `W` and height `H`. -/
def roiEmpty (W H : ℤ) (box : Box) : Bool :=
  let x := box.1
  let y := box.2.1
  let w := box.2.2.1
  let h := box.2.2.2
  let x_start := max 0 (x - 10)
  let y_start := max 0 (y - 10)
  let x_end := min W (x + w + 10)
  let y_end := min H (y + h + 10)
  decide (y_end - y_start ≤ 0) || decide (x_end - x_start ≤ 0)

/-- The delta dict `emotion_deltas` (vision.py lines 389-392): one entry per
current-score channel, holding current minus baseline (missing baseline
channels count as zero). -/
def emotion_deltas (emotion_scores baseline : List (String × ℚ)) : List (String × ℚ) :=
  emotion_scores.foldl (fun acc p => dset acc p.1 (p.2 - dgetD baseline p.1 0)) []

/-- The four delta-mode rules (vision.py lines 396-419), evaluated in order,
first match wins; every rule returns `angry`. -/
def delta_rules (emotion_scores b : List (String × ℚ)) : Option String :=
  let d := emotion_deltas emotion_scores b
  let anger_delta := dgetD d "angry" 0
  let disgust_delta := dgetD d "disgust" 0
  let sad_delta := dgetD d "sad" 0
  let happy_delta := dgetD d "happy" 0
  if 8 < anger_delta then some "angry"
  else if 12 < anger_delta + disgust_delta + sad_delta ∧
      (3 < anger_delta ∨ 6 < disgust_delta) then some "angry"
  else if 10 < disgust_delta then some "angry"
  else if 5 < anger_delta ∧ happy_delta < -5 then some "angry"
  else none

/-- Python `str.lower()`: lowercase every character. -/
def pyLower (s : String) : String := ⟨s.data.map Char.toLower⟩

/-- Python `sorted(items, key=lambda x: x[1], reverse=True)`: stable
descending insertion of one scored item. -/
def insertDesc (p : String × ℚ) : List (String × ℚ) → List (String × ℚ)
  | [] => [p]
  | q :: rest => if p.2 < q.2 then q :: insertDesc p rest else p :: q :: rest

/-- Stable descending sort by score. -/
def sortScoresDesc : List (String × ℚ) → List (String × ℚ)
  | [] => []
  | p :: rest => insertDesc p (sortScoresDesc rest)

/-- The absolute-score fallback strategies 1-7 and the final dominant-label
return (vision.py lines 421-481). -/
def fallback_strategies (res : DFRes) : String :=
  let emotion_scores := res.emotion
  let dominant_emotion := pyLower res.dominant_emotion
  let anger_score := dgetD emotion_scores "angry" 0
  let disgust_score := dgetD emotion_scores "disgust" 0
  let fear_score := dgetD emotion_scores "fear" 0
  let sad_score := dgetD emotion_scores "sad" 0
  let neutral_score := dgetD emotion_scores "neutral" 0
  let surprise_score := dgetD emotion_scores "surprise" 0
  let strat1 : Option String :=
    if 8 ≤ anger_score then
      let boosted_anger := anger_score * (5 / 2)
      let dominant_score := dgetD emotion_scores dominant_emotion 0
      if dominant_score * (2 / 5) ≤ boosted_anger then some "angry" else none
    else none
  match strat1 with
  | some r => r
  | none =>
    if 25 < anger_score + disgust_score + sad_score ∧
        (5 < anger_score ∨ 12 < disgust_score) then "angry"
    else if 30 < neutral_score ∧ (8 < anger_score ∨ 10 < disgust_score) then "angry"
    else if 18 < disgust_score then "angry"
    else if 15 < fear_score ∧ 8 < anger_score then "angry"
    else if 20 < surprise_score ∧ 6 < anger_score then "angry"
    else
      let happy_score := dgetD emotion_scores "happy" 0
      let strat7 : Option String :=
        if 10 < anger_score ∧ happy_score < 15 then
          match sortScoresDesc emotion_scores with
          | p1 :: p2 :: _ =>
            if anger_score = p1.2 ∨ anger_score = p2.2 ∨ p2.2 * (7 / 10) ≤ anger_score
            then some "angry" else none
          | _ => none
        else none
      match strat7 with
      | some r => r
      | none => pyLower dominant_emotion

/-- The classification logic of `analyze_face_emotion` after a successful
DeepFace call (vision.py lines 380-481).  NOTE: in the source the
absolute-score strategies are NOT guarded by the absence of a baseline,
despite the comment `(fallback if no baseline)`: when no delta rule
matches, control falls from the delta block straight into them. -/
def classify_scores (res : DFRes) (baseline : Option (List (String × ℚ))) : String :=
  let deltaResult : Option String :=
    match baseline with
    | some b => if b.isEmpty then none else delta_rules res.emotion b
    | none => none
  match deltaResult with
  | some r => r
  | none => fallback_strategies res

/-- `analyze_face_emotion` (vision.py lines 337-485): `df` is the outcome of
the embedded `DeepFace.analyze` call; any exception in the `try` block
yields `"unknown"`, as does an empty region of interest. -/
def analyze_face_emotion (W H : ℤ) (box : Box) (df : Except Unit DFRes)
    (baseline : Option (List (String × ℚ))) : String :=
  if roiEmpty W H box then "unknown"
  else
    match df with
    | .error _ => "unknown"
    | .ok res => classify_scores res baseline

/-- `get_raw_emotion_scores` (vision.py lines 288-334): `dfRaw` is the
outcome of its own `DeepFace.analyze` call, reduced to the emotion dict;
errors and an empty region of interest give `None`. -/
def get_raw_emotion_scores (W H : ℤ) (box : Box)
    (dfRaw : Except Unit (List (String × ℚ))) : Option (List (String × ℚ)) :=
  if roiEmpty W H box then none
  else
    match dfRaw with
    | .error _ => none
    | .ok scores => some scores

/-- C1 (code-bug evidence): with a locked baseline equal to the current
scores, every delta is zero, so no delta rule of §4.4 matches; the claim
(and the source's own comment `(fallback if no baseline)`) says the raw
dominant label `"neutral"` is returned, but the code falls through into the
absolute-score strategies and Strategy 3 (`neutral > 30` and
`disgust > 10`) returns `"angry"`. -/
theorem C1_fallback_runs_despite_baseline :
    analyze_face_emotion 640 480 (100, 100, 50, 50)
      (.ok ⟨[("angry", 0), ("disgust", 20), ("fear", 0), ("happy", 20),
             ("sad", 0), ("surprise", 0), ("neutral", 60)], "neutral"⟩)
      (some [("angry", 0), ("disgust", 20), ("fear", 0), ("happy", 20),
             ("sad", 0), ("surprise", 0), ("neutral", 60)]) = "angry" ∧
    delta_rules
      [("angry", 0), ("disgust", 20), ("fear", 0), ("happy", 20),
       ("sad", 0), ("surprise", 0), ("neutral", 60)]
      [("angry", 0), ("disgust", 20), ("fear", 0), ("happy", 20),
       ("sad", 0), ("surprise", 0), ("neutral", 60)] = none ∧
    ("angry" : String) ≠ "neutral" := by
  have hl : pyLower "neutral" = "neutral" := by decide
  refine ⟨?_, ?_, by decide⟩
  · simp [analyze_face_emotion, roiEmpty, classify_scores, delta_rules,
      emotion_deltas, dset, dgetD, fallback_strategies, hl]
    norm_num
  · simp [delta_rules, emotion_deltas, dset, dgetD]
    norm_num

/-- C7 counterexample: the claimed equivalence fails in the right-to-left
direction.  With a locked baseline equal to the current scores no delta
rule fires (all deltas are zero), yet `analyze_face_emotion` still returns
`"angry"` (here the dominant label is `angry`, and absolute-score
Strategy 1 also fires), so "returns angry exactly when a delta rule fires"
is false. -/
theorem C7_counterexample_angry_without_rule :
    analyze_face_emotion 640 480 (100, 100, 50, 50)
      (.ok ⟨[("angry", 50), ("neutral", 10)], "angry"⟩)
      (some [("angry", 50), ("neutral", 10)]) = "angry" ∧
    delta_rules [("angry", 50), ("neutral", 10)]
      [("angry", 50), ("neutral", 10)] = none := by
  have hl : pyLower "angry" = "angry" := by decide
  constructor
  · simp [analyze_face_emotion, roiEmpty, classify_scores, delta_rules,
      emotion_deltas, dset, dgetD, fallback_strategies, hl]
    norm_num
  · simp [delta_rules, emotion_deltas, dset, dgetD]
    norm_num

/-- C7 amended: with a locked (truthy) baseline and a successful DeepFace
call, whenever one of the four delta rules — evaluated in order on
`deltas = current − baseline` per channel — matches, `analyze_face_emotion`
returns `"angry"`.  (Only the direction claimed as "exactly when" had to be
dropped: when no delta rule matches, the absolute-score strategies or the
raw dominant label may still produce `"angry"`.) -/
theorem C7_amended_delta_rules (W H : ℤ) (box : Box) (res : DFRes)
    (b : List (String × ℚ))
    (hroi : roiEmpty W H box = false)
    (hb : b ≠ [])
    (hrule :
      8 < dgetD (emotion_deltas res.emotion b) "angry" 0 ∨
      (12 < dgetD (emotion_deltas res.emotion b) "angry" 0 +
            dgetD (emotion_deltas res.emotion b) "disgust" 0 +
            dgetD (emotion_deltas res.emotion b) "sad" 0 ∧
        (3 < dgetD (emotion_deltas res.emotion b) "angry" 0 ∨
         6 < dgetD (emotion_deltas res.emotion b) "disgust" 0)) ∨
      10 < dgetD (emotion_deltas res.emotion b) "disgust" 0 ∨
      (5 < dgetD (emotion_deltas res.emotion b) "angry" 0 ∧
        dgetD (emotion_deltas res.emotion b) "happy" 0 < -5)) :
    analyze_face_emotion W H box (.ok res) (some b) = "angry" := by
  have hbe : b.isEmpty = false := by
    cases b with
    | nil => exact absurd rfl hb
    | cons p rest => rfl
  have hdr : delta_rules res.emotion b = some "angry" := by
    rw [delta_rules]
    split_ifs <;> first | rfl | tauto
  simp [analyze_face_emotion, hroi, classify_scores, hbe, hdr]

/-- Witness for the amended C7: anger score 10 over baseline 1 gives an
anger delta of 9 > 8, so rule 1 fires and the face is classified angry. -/
theorem C7_amended_delta_rules_witness :
    analyze_face_emotion 640 480 (100, 100, 50, 50)
      (.ok ⟨[("angry", 10)], "neutral"⟩) (some [("angry", 1)]) = "angry" :=
  C7_amended_delta_rules 640 480 (100, 100, 50, 50) ⟨[("angry", 10)], "neutral"⟩
    [("angry", 1)] (by decide) (by simp)
    (Or.inl (by norm_num [emotion_deltas, dset, dgetD]))

/-! ## analyze_player_emotions (src/vision.py, lines 178-245) -/

/-- Insertion of a face box into a list sorted ascending by x, keeping
earlier faces in front of later faces with equal x (Python sorts stably). -/
def insertByX (f : Box) : List Box → List Box
  | [] => [f]
  | g :: rest => if g.1 < f.1 then g :: insertByX f rest else f :: g :: rest

/-- Python `sorted(faces, key=lambda f: f[0])`. -/
def sortByX : List Box → List Box
  | [] => []
  | f :: rest => insertByX f (sortByX rest)

theorem insertByX_perm (f : Box) (l : List Box) : List.Perm (insertByX f l) (f :: l) := by
  induction l with
  | nil => exact List.Perm.refl _
  | cons g rest ih =>
    simp only [insertByX]
    by_cases h : g.1 < f.1
    · rw [if_pos h]
      exact (ih.cons g).trans (List.Perm.swap f g rest)
    · rw [if_neg h]

theorem sortByX_perm (l : List Box) : List.Perm (sortByX l) l := by
  induction l with
  | nil => exact List.Perm.refl _
  | cons f rest ih => exact (insertByX_perm f (sortByX rest)).trans (ih.cons f)

theorem insertByX_pairwise (f : Box) (l : List Box)
    (hl : List.Pairwise (fun a b : Box => a.1 ≤ b.1) l) :
    List.Pairwise (fun a b : Box => a.1 ≤ b.1) (insertByX f l) := by
  induction l with
  | nil => simp [insertByX]
  | cons g rest ih =>
    rcases List.pairwise_cons.1 hl with ⟨hg, hrest⟩
    simp only [insertByX]
    by_cases h : g.1 < f.1
    · rw [if_pos h]
      refine List.pairwise_cons.2 ⟨?_, ih hrest⟩
      intro x hx
      rcases List.mem_cons.1 ((insertByX_perm f rest).mem_iff.1 hx) with h1 | h1
      · rw [h1]; exact le_of_lt h
      · exact hg x h1
    · rw [if_neg h]
      refine List.pairwise_cons.2 ⟨?_, hl⟩
      intro x hx
      rcases List.mem_cons.1 hx with h1 | h1
      · rw [h1]; exact not_lt.1 h
      · exact le_trans (not_lt.1 h) (hg x h1)

theorem sortByX_pairwise (l : List Box) :
    List.Pairwise (fun a b : Box => a.1 ≤ b.1) (sortByX l) := by
  induction l with
  | nil => simp [sortByX]
  | cons f rest ih => exact insertByX_pairwise f (sortByX rest) ih

/-- The per-face classification step of `analyze_player_emotions`
(vision.py lines 222-237): the first (leftmost) sorted face feeds the left
slot with the left baseline, the second the right slot with the right
baseline; remaining faces are unused; a single face leaves the right slot
`"unknown"`. -/
def vision_assigned_emotions (W H : ℤ) (df : Box → Except Unit DFRes)
    (left_baseline right_baseline : Option (List (String × ℚ)))
    (faces_sorted : List Box) : String × String :=
  match faces_sorted with
  | [] => ("unknown", "unknown")
  | f1 :: rest =>
    let left_emotion := analyze_face_emotion W H f1 (df f1) left_baseline
    let right_emotion :=
      match rest with
      | f2 :: _ => analyze_face_emotion W H f2 (df f2) right_baseline
      | [] => "unknown"
    (left_emotion, right_emotion)

/-- The module-level mutable state read and written by
`analyze_player_emotions`. -/
structure VisionGlobals where
  smoother : SmootherState
  calib : CalibState
deriving DecidableEq

/-- The calibration-sampling block of `analyze_player_emotions`
(vision.py lines 204-220), which only mutates the calibrator state. -/
def calibration_block (W H : ℤ) (dfRaw : Box → Except Unit (List (String × ℚ)))
    (c : CalibState) (faces_sorted : List Box) : CalibState :=
  if !c.calibrated then
    let left_scores :=
      match faces_sorted with
      | f1 :: _ => get_raw_emotion_scores W H f1 (dfRaw f1)
      | [] => none
    let right_scores :=
      match faces_sorted with
      | _ :: f2 :: _ => get_raw_emotion_scores W H f2 (dfRaw f2)
      | _ => none
    if truthyD left_scores then
      let c2 := add_calibration_sample c (left_scores.getD []) right_scores
      if c2.samples_needed ≤ c2.calibration_samples.length then
        (calculate_baseline c2).2
      else c2
    else c
  else c

/-- `analyze_player_emotions` (vision.py lines 178-245): `faces` is the
result of `detect_faces` (which catches its own errors and returns `[]`),
`df`/`dfRaw` are the outcomes of the per-face DeepFace calls, `setEnum` is
the set-iteration order used by the smoother.  Returns the published
`{left, right}` dict as a pair together with the updated global state; the
function is total, mirroring the outer `try`/`except` (every internal
failure is already caught by the callees, and a zero-face frame returns
early with both slots `"unknown"`, before any smoothing). -/
def analyze_player_emotions (W H : ℤ) (df : Box → Except Unit DFRes)
    (dfRaw : Box → Except Unit (List (String × ℚ)))
    (setEnum : List String → List String)
    (g : VisionGlobals) (faces : List Box) : (String × String) × VisionGlobals :=
  if faces.length = 0 then (("unknown", "unknown"), g)
  else
    let faces_sorted := sortByX faces
    let left_baseline := get_baseline g.calib "left"
    let right_baseline := get_baseline g.calib "right"
    let calib2 := calibration_block W H dfRaw g.calib faces_sorted
    let emotions := vision_assigned_emotions W H df left_baseline right_baseline faces_sorted
    let smoothed := EmotionSmoother.update setEnum g.smoother emotions.1 emotions.2
    (smoothed.1, ⟨smoothed.2, calib2⟩)

/-! ## analysis_worker and main_app (src/main.py) -/

/-- `CAMERA_WIDTH = 1280` (main.py line 31). -/
def CAMERA_WIDTH : ℤ := 1280

/-- `CENTER_LINE = CAMERA_WIDTH / 2` (main.py line 33). -/
def CENTER_LINE : ℤ := CAMERA_WIDTH / 2

/-- A DeepFace face region dict `{x, y, w, h}`. -/
structure FaceRegion where
  x : ℤ
  y : ℤ
  w : ℤ
  h : ℤ
deriving DecidableEq

/-- One entry of the DeepFace result list consumed by `analysis_worker`. -/
structure WorkerFace where
  region : FaceRegion
  dominant_emotion : String
deriving DecidableEq

/-- The shared per-subject state published by the worker. -/
structure WorkerShared where
  player_1_emotion : String
  player_2_emotion : String
  player_1_box : Option FaceRegion
  player_2_box : Option FaceRegion
deriving DecidableEq

/-- The face loop of `analysis_worker` (main.py lines 85-100): `fear`
remaps to `angry`, then each face lands in slot 1 or 2 according to which
side of the center line its x coordinate lies on; a later face on the same
side overwrites an earlier one.  An empty result list leaves the locals at
their `"unknown"`/`None` initials, like the `len(results) > 0` guard. -/
def worker_assign (results : List WorkerFace) : WorkerShared :=
  results.foldl
    (fun st face =>
      let emotion := if face.dominant_emotion = "fear" then "angry"
        else face.dominant_emotion
      if face.region.x < CENTER_LINE then
        { st with player_1_emotion := emotion, player_1_box := some face.region }
      else
        { st with player_2_emotion := emotion, player_2_box := some face.region })
    ⟨"unknown", "unknown", none, none⟩

/-- One cycle of `analysis_worker` (main.py lines 62-119): the analysis
outcome (the DeepFace call plus the processing loop of the `try` block)
either succeeds with a face list or raises; on an exception both emotion
slots become `"unknown"` and both boxes are cleared for this cycle. -/
def worker_cycle (res : Except Unit (List WorkerFace)) (prev : WorkerShared) :
    WorkerShared :=
  match res with
  | .ok results => worker_assign results
  | .error _ => ⟨"unknown", "unknown", none, none⟩

/-- The worker loop over a finite schedule of cycle outcomes: it is a total
function, i.e. no exception escapes a loop body and the loop never stops
early. -/
def analysis_worker_run (cycles : List (Except Unit (List WorkerFace)))
    (s : WorkerShared) : WorkerShared :=
  cycles.foldl (fun st c => worker_cycle c st) s

/-- C9: a cycle whose classification step raises sets both subject slots to
`"unknown"` and clears both boxes, and the worker loop keeps consuming the
remaining cycles (it never terminates on an exception; totality of
`analysis_worker_run` embodies that no exception escapes the loop body). -/
theorem C9_worker_error_recovery (e : Unit) (prev : WorkerShared)
    (cycles : List (Except Unit (List WorkerFace))) :
    worker_cycle (.error e) prev = ⟨"unknown", "unknown", none, none⟩ ∧
    analysis_worker_run (.error e :: cycles) prev =
      analysis_worker_run cycles ⟨"unknown", "unknown", none, none⟩ ∧
    ∀ (res : Except Unit (List WorkerFace)),
      analysis_worker_run (res :: cycles) prev =
        analysis_worker_run cycles (worker_cycle res prev) :=
  ⟨rfl, rfl, fun _ => rfl⟩

/-- C4 counterexample: in `analysis_worker` (main.py), one of the two code
places the claim cites, assignment is by center line (x < 640), not by
sorting: for faces at x = 300, 50, 900 the right slot receives the x = 900
face's classification (`"neutral"`), not the x = 300 face's (`"happy"`) as
the claim states. -/
theorem C4_counterexample_center_line :
    (worker_cycle (.ok
      [⟨⟨300, 0, 50, 50⟩, "happy"⟩, ⟨⟨50, 0, 50, 50⟩, "sad"⟩,
       ⟨⟨900, 0, 50, 50⟩, "neutral"⟩]) ⟨"unknown", "unknown", none, none⟩).player_2_emotion
      = "neutral" ∧
    ("neutral" : String) ≠ "happy" := by
  decide

/-- C4 amended: in `analyze_player_emotions` (vision.py) the claim holds —
faces are sorted ascending by x (the result is a sorted permutation of the
input), zero faces yields `"unknown"` for both slots, the smallest-x face's
classification feeds the left slot and the second face's the right slot
(`"unknown"` when absent), faces beyond the second being unused; the raw
assignment then passes through the smoother.  In `analysis_worker`
(main.py) assignment is instead by center line, as the counterexample
shows. -/
theorem C4_amended_vision_assignment (W H : ℤ) (df : Box → Except Unit DFRes)
    (dfRaw : Box → Except Unit (List (String × ℚ)))
    (setEnum : List String → List String) (g : VisionGlobals) (faces : List Box) :
    List.Perm (sortByX faces) faces ∧
    List.Pairwise (fun a b : Box => a.1 ≤ b.1) (sortByX faces) ∧
    (faces = [] →
      analyze_player_emotions W H df dfRaw setEnum g faces = (("unknown", "unknown"), g)) ∧
    (∀ f1 rest, sortByX faces = f1 :: rest →
      (∀ f ∈ faces, f1.1 ≤ f.1) ∧
      vision_assigned_emotions W H df (get_baseline g.calib "left")
          (get_baseline g.calib "right") (sortByX faces) =
        (analyze_face_emotion W H f1 (df f1) (get_baseline g.calib "left"),
          match rest with
          | [] => "unknown"
          | f2 :: _ => analyze_face_emotion W H f2 (df f2) (get_baseline g.calib "right"))) ∧
    (faces ≠ [] →
      (analyze_player_emotions W H df dfRaw setEnum g faces).1 =
        (EmotionSmoother.update setEnum g.smoother
          (vision_assigned_emotions W H df (get_baseline g.calib "left")
            (get_baseline g.calib "right") (sortByX faces)).1
          (vision_assigned_emotions W H df (get_baseline g.calib "left")
            (get_baseline g.calib "right") (sortByX faces)).2).1) := by
  refine ⟨sortByX_perm faces, sortByX_pairwise faces, ?_, ?_, ?_⟩
  · intro hfe
    subst hfe
    simp [analyze_player_emotions]
  · intro f1 rest hsort
    constructor
    · intro f hf
      have hf2 : f ∈ sortByX faces := (sortByX_perm faces).mem_iff.2 hf
      rw [hsort] at hf2
      rcases List.mem_cons.1 hf2 with h1 | h1
      · rw [h1]
      · have hp := sortByX_pairwise faces
        rw [hsort] at hp
        exact (List.pairwise_cons.1 hp).1 f h1
    · rw [hsort]
      cases rest with
      | nil => rfl
      | cons f2 rest2 => rfl
  · intro hne
    have hlen : ¬(faces.length = 0) := by
      simpa [List.length_eq_zero] using hne
    simp only [analyze_player_emotions, if_neg hlen]

/-- The classifier used in the C4 witness: scores are empty, so the
fallback returns the dominant label attached to each box. -/
def c4_witness_df (box : Box) : Except Unit DFRes :=
  .ok ⟨[], if box.1 = 50 then "sad" else if box.1 = 300 then "happy" else "neutral"⟩

/-- The global state used in the C4 witness: the freshly constructed
smoother and calibrator. -/
def c4_witness_globals : VisionGlobals :=
  ⟨emotion_smoother_init, baseline_calibrator_init⟩

/-- Witness for C4 amended, at the spec's own example `x = [300, 50, 900]`:
after sorting, the left slot receives the x = 50 face's classification
(`"sad"`) and the right slot the x = 300 face's (`"happy"`). -/
theorem C4_amended_vision_assignment_witness :
    sortByX [(300, 0, 50, 50), (50, 0, 50, 50), (900, 0, 50, 50)] =
      [(50, 0, 50, 50), (300, 0, 50, 50), (900, 0, 50, 50)] ∧
    vision_assigned_emotions 1280 720 c4_witness_df
      (get_baseline c4_witness_globals.calib "left")
      (get_baseline c4_witness_globals.calib "right")
      (sortByX [(300, 0, 50, 50), (50, 0, 50, 50), (900, 0, 50, 50)]) =
      ("sad", "happy") := by
  have hsort : sortByX [((300 : ℤ), (0 : ℤ), (50 : ℤ), (50 : ℤ)), (50, 0, 50, 50), (900, 0, 50, 50)] =
      [(50, 0, 50, 50), (300, 0, 50, 50), (900, 0, 50, 50)] := by decide
  have h := C4_amended_vision_assignment 1280 720 c4_witness_df
    (fun _ => .error ()) (fun l => l) c4_witness_globals
    [(300, 0, 50, 50), (50, 0, 50, 50), (900, 0, 50, 50)]
  have h4 := (h.2.2.2.1 (50, 0, 50, 50) [(300, 0, 50, 50), (900, 0, 50, 50)] hsort).2
  refine ⟨hsort, ?_⟩
  rw [h4, Prod.mk.injEq]
  have hsad : pyLower "sad" = "sad" := by decide
  have hhappy : pyLower "happy" = "happy" := by decide
  constructor
  · show analyze_face_emotion 1280 720 (50, 0, 50, 50) (c4_witness_df (50, 0, 50, 50))
      (get_baseline c4_witness_globals.calib "left") = "sad"
    simp [analyze_face_emotion, roiEmpty, c4_witness_df, get_baseline,
      c4_witness_globals, baseline_calibrator_init, classify_scores,
      fallback_strategies, dgetD, hsad]
    norm_num
  · show analyze_face_emotion 1280 720 (300, 0, 50, 50) (c4_witness_df (300, 0, 50, 50))
      (get_baseline c4_witness_globals.calib "right") = "happy"
    simp [analyze_face_emotion, roiEmpty, c4_witness_df, get_baseline,
      c4_witness_globals, baseline_calibrator_init, classify_scores,
      fallback_strategies, dgetD, hhappy]
    norm_num

/-- C10 counterexample: when classification raises internally the returned
values are NOT both `"unknown"`: the raw `"unknown"` label is smoothed, and
a stable `"angry"` history keeps the left value at `"angry"`. -/
theorem C10_counterexample_smoothed_failure :
    (analyze_player_emotions 640 480 (fun _ => .error ()) (fun _ => .error ())
      (fun l => l)
      ⟨⟨7, 4, ["angry", "angry", "angry"], [], "angry", "unknown"⟩,
       ⟨none, none, true, [], 10⟩⟩
      [(100, 100, 50, 50)]).1.1 = "angry" ∧
    ("angry" : String) ≠ "unknown" := by
  decide

/-- C10 amended: `analyze_player_emotions` is total (it always returns a
`{left, right}` pair of labels); with no detected face — including when
face detection raises, since `detect_faces` catches its own errors and
returns an empty list — both values are `"unknown"`, bypassing the
smoother; but when classification raises internally, the raw label
`"unknown"` is fed through the smoother, whose output is returned (and may
keep an earlier stable label, as the counterexample shows). -/
theorem C10_amended_total_and_failure_paths (W H : ℤ)
    (df : Box → Except Unit DFRes)
    (dfRaw : Box → Except Unit (List (String × ℚ)))
    (setEnum : List String → List String) (g : VisionGlobals) (faces : List Box) :
    (faces = [] →
      analyze_player_emotions W H df dfRaw setEnum g faces = (("unknown", "unknown"), g)) ∧
    ((∀ b, df b = .error ()) → faces ≠ [] →
      (analyze_player_emotions W H df dfRaw setEnum g faces).1 =
        (EmotionSmoother.update setEnum g.smoother "unknown" "unknown").1) := by
  constructor
  · intro hfe
    subst hfe
    simp [analyze_player_emotions]
  · intro herr hne
    have hlen : ¬(faces.length = 0) := by
      simpa [List.length_eq_zero] using hne
    have hslen : (sortByX faces).length = faces.length := (sortByX_perm faces).length_eq
    obtain ⟨f1, rest, hsort⟩ : ∃ f1 rest, sortByX faces = f1 :: rest := by
      cases hc : sortByX faces with
      | nil =>
        rw [hc] at hslen
        simp only [List.length_nil] at hslen
        exact absurd hslen.symm hlen
      | cons a t => exact ⟨a, t, rfl⟩
    have hassigned : vision_assigned_emotions W H df (get_baseline g.calib "left")
        (get_baseline g.calib "right") (sortByX faces) = ("unknown", "unknown") := by
      rw [hsort]
      cases rest with
      | nil => simp [vision_assigned_emotions, analyze_face_emotion, herr f1]
      | cons f2 r2 =>
        simp [vision_assigned_emotions, analyze_face_emotion, herr f1, herr f2]
    simp only [analyze_player_emotions, if_neg hlen, hassigned]

/-! ## The roasting logic of main_app (src/main.py, lines 158-218) -/

/-- `ROAST_COOLDOWN = 10.0` (main.py line 36). -/
def ROAST_COOLDOWN : ℚ := 10

/-- The kind of alert fired by one dispatch iteration. -/
inductive AlertKind where
  | hardware
  | left
  | right
deriving DecidableEq

/-- The three last-roast timestamps (main.py lines 37-39). -/
structure DispatchState where
  player_1_last_roast : ℚ
  player_2_last_roast : ℚ
  hardware_last_roast : ℚ
deriving DecidableEq

/-- The per-iteration inputs of the roasting logic: `time.time()`, the two
edge-triggered hardware signals, and the two smoothed emotions read from
the shared state. -/
structure DispatchInput where
  now : ℚ
  is_shaking : Bool
  is_yelling : Bool
  p1_emo : String
  p2_emo : String
deriving DecidableEq

/-- One iteration of the roasting logic (main.py lines 184-218): an
`if`/`elif`/`elif` chain — hardware first, then player 1 (left), then
player 2 (right) — so at most one alert fires per iteration; the fired
branch resets the timestamps exactly as the source does (a hardware alert
resets all three; a player alert resets its own and the hardware one). -/
def dispatch_step (C : ℚ) (s : DispatchState) (i : DispatchInput) :
    Option AlertKind × DispatchState :=
  if (i.is_shaking ∨ i.is_yelling) ∧ C < i.now - s.hardware_last_roast then
    (some .hardware, ⟨i.now, i.now, i.now⟩)
  else if i.p1_emo = "angry" ∧ C < i.now - s.player_1_last_roast then
    (some .left, { s with player_1_last_roast := i.now, hardware_last_roast := i.now })
  else if i.p2_emo = "angry" ∧ C < i.now - s.player_2_last_roast then
    (some .right, { s with player_2_last_roast := i.now, hardware_last_roast := i.now })
  else (none, s)

/-- Iterated dispatch over a finite schedule of fast-loop iterations,
collecting the alert (if any) of every iteration. -/
def dispatch_run (C : ℚ) : DispatchState → List DispatchInput →
    List (Option AlertKind) × DispatchState
  | s, [] => ([], s)
  | s, i :: is =>
    let step := dispatch_step C s i
    let rest := dispatch_run C step.2 is
    (step.1 :: rest.1, rest.2)

/-- The timestamp guarding alerts of kind `k`. -/
def lastOf : AlertKind → DispatchState → ℚ
  | .hardware, s => s.hardware_last_roast
  | .left, s => s.player_1_last_roast
  | .right, s => s.player_2_last_roast

/-- The trigger condition of kind `k` in one iteration. -/
def trigger_active : AlertKind → DispatchInput → Prop
  | .hardware, i => i.is_shaking ∨ i.is_yelling
  | .left, i => i.p1_emo = "angry"
  | .right, i => i.p2_emo = "angry"

/-- No strictly higher-priority branch of the `if`/`elif` chain is
triggered in this iteration. -/
def higher_blockers_inactive : AlertKind → DispatchInput → Prop
  | .hardware, _ => True
  | .left, i => ¬(i.is_shaking ∨ i.is_yelling)
  | .right, i => ¬(i.is_shaking ∨ i.is_yelling) ∧ i.p1_emo ≠ "angry"

theorem dispatch_step_none (C t0 : ℚ) (s : DispatchState) (i : DispatchInput)
    (h1 : t0 ≤ s.player_1_last_roast) (h2 : t0 ≤ s.player_2_last_roast)
    (h3 : t0 ≤ s.hardware_last_roast)
    (ht : t0 ≤ i.now ∧ i.now ≤ t0 + C) :
    dispatch_step C s i = (none, s) := by
  have hhw : ¬((i.is_shaking ∨ i.is_yelling) ∧ C < i.now - s.hardware_last_roast) := by
    rintro ⟨-, hlt⟩
    linarith [ht.1, ht.2]
  have hp1 : ¬(i.p1_emo = "angry" ∧ C < i.now - s.player_1_last_roast) := by
    rintro ⟨-, hlt⟩
    linarith [ht.1, ht.2]
  have hp2 : ¬(i.p2_emo = "angry" ∧ C < i.now - s.player_2_last_roast) := by
    rintro ⟨-, hlt⟩
    linarith [ht.1, ht.2]
  simp only [dispatch_step, if_neg hhw, if_neg hp1, if_neg hp2]

theorem dispatch_run_none (C t0 : ℚ) : ∀ (s : DispatchState) (is : List DispatchInput),
    t0 ≤ s.player_1_last_roast → t0 ≤ s.player_2_last_roast →
    t0 ≤ s.hardware_last_roast →
    (∀ j ∈ is, t0 ≤ j.now ∧ j.now ≤ t0 + C) →
    dispatch_run C s is = (List.replicate is.length none, s) := by
  intro s is
  induction is generalizing s with
  | nil => intro _ _ _ _; rfl
  | cons i is ih =>
    intro h1 h2 h3 hts
    have hstep := dispatch_step_none C t0 s i h1 h2 h3 (hts i (List.mem_cons_self _ _))
    simp only [dispatch_run, hstep]
    rw [ih s h1 h2 h3 (fun j hj => hts j (List.mem_cons_of_mem _ hj))]
    rfl

theorem fire_requires_cooldown (C : ℚ) (s : DispatchState) (i : DispatchInput)
    (k : AlertKind) (h : (dispatch_step C s i).1 = some k) :
    C < i.now - lastOf k s := by
  cases k <;>
    · simp only [dispatch_step] at h
      split_ifs at h with hc1 hc2 hc3 <;> simp_all [lastOf]

theorem lastOf_after_step (C : ℚ) (s : DispatchState) (i : DispatchInput) (k : AlertKind) :
    lastOf k (dispatch_step C s i).2 = lastOf k s ∨
    lastOf k (dispatch_step C s i).2 = i.now := by
  cases k <;>
    · simp only [dispatch_step]
      split_ifs <;> simp [lastOf]

theorem no_refire_in_window (C t0 : ℚ) (k : AlertKind) :
    ∀ (s : DispatchState) (is : List DispatchInput),
      t0 ≤ lastOf k s →
      (∀ j ∈ is, t0 ≤ j.now ∧ j.now ≤ t0 + C) →
      some k ∉ (dispatch_run C s is).1 := by
  intro s is
  induction is generalizing s with
  | nil => intro _ _; simp [dispatch_run]
  | cons i is ih =>
    intro hk hts
    have hi := hts i (List.mem_cons_self _ _)
    intro hmem
    simp only [dispatch_run] at hmem
    rcases List.mem_cons.1 hmem with hfire | hrest
    · have := fire_requires_cooldown C s i k hfire.symm
      linarith [hi.1, hi.2]
    · have hnext : t0 ≤ lastOf k (dispatch_step C s i).2 := by
        rcases lastOf_after_step C s i k with he | he
        · rw [he]; exact hk
        · rw [he]; exact hi.1
      exact ih (dispatch_step C s i).2 hnext
        (fun j hj => hts j (List.mem_cons_of_mem _ hj)) hrest

theorem quiet_window_step (C t0 : ℚ) (k : AlertKind) (s : DispatchState)
    (i : DispatchInput)
    (hk : lastOf k s = t0)
    (hextra : k = AlertKind.hardware →
      t0 ≤ s.player_1_last_roast ∧ t0 ≤ s.player_2_last_roast)
    (hb : higher_blockers_inactive k i)
    (ht : t0 ≤ i.now ∧ i.now ≤ t0 + C) :
    (dispatch_step C s i).1 ≠ some k ∧
    lastOf k (dispatch_step C s i).2 = t0 ∧
    (k = AlertKind.hardware →
      t0 ≤ (dispatch_step C s i).2.player_1_last_roast ∧
      t0 ≤ (dispatch_step C s i).2.player_2_last_roast) := by
  cases k with
  | hardware =>
    obtain ⟨he1, he2⟩ := hextra rfl
    have hstep : dispatch_step C s i = (none, s) :=
      dispatch_step_none C t0 s i he1 he2 (le_of_eq hk.symm) ht
    rw [hstep]
    exact ⟨by simp, hk, fun _ => ⟨he1, he2⟩⟩
  | left =>
    simp only [higher_blockers_inactive] at hb
    simp only [lastOf] at hk
    simp only [dispatch_step]
    split_ifs with hc1 hc2 hc3
    · exact absurd hc1.1 hb
    · exfalso
      rw [hk] at hc2
      linarith [ht.1, ht.2, hc2.2]
    · refine ⟨by simp, ?_, by simp⟩
      simp [lastOf, hk]
    · exact ⟨by simp, hk, by simp⟩
  | right =>
    simp only [higher_blockers_inactive] at hb
    simp only [lastOf] at hk
    simp only [dispatch_step]
    split_ifs with hc1 hc2 hc3
    · exact absurd hc1.1 hb.1
    · exact absurd hc2.1 hb.2
    · exfalso
      rw [hk] at hc3
      linarith [ht.1, ht.2, hc3.2]
    · exact ⟨by simp, hk, by simp⟩

theorem quiet_window_run (C t0 : ℚ) (k : AlertKind) :
    ∀ (s : DispatchState) (is : List DispatchInput),
      lastOf k s = t0 →
      (k = AlertKind.hardware →
        t0 ≤ s.player_1_last_roast ∧ t0 ≤ s.player_2_last_roast) →
      (∀ j ∈ is, higher_blockers_inactive k j) →
      (∀ j ∈ is, t0 ≤ j.now ∧ j.now ≤ t0 + C) →
      some k ∉ (dispatch_run C s is).1 ∧
      lastOf k (dispatch_run C s is).2 = t0 ∧
      (k = AlertKind.hardware →
        t0 ≤ (dispatch_run C s is).2.player_1_last_roast ∧
        t0 ≤ (dispatch_run C s is).2.player_2_last_roast) := by
  intro s is
  induction is generalizing s with
  | nil => intro hk hextra _ _; exact ⟨by simp [dispatch_run], hk, hextra⟩
  | cons i is ih =>
    intro hk hextra hbs hts
    have hstep := quiet_window_step C t0 k s i hk hextra
      (hbs i (List.mem_cons_self _ _)) (hts i (List.mem_cons_self _ _))
    have hih := ih (dispatch_step C s i).2 hstep.2.1 hstep.2.2
      (fun j hj => hbs j (List.mem_cons_of_mem _ hj))
      (fun j hj => hts j (List.mem_cons_of_mem _ hj))
    refine ⟨?_, hih.2.1, hih.2.2⟩
    intro hmem
    simp only [dispatch_run] at hmem
    rcases List.mem_cons.1 hmem with hfire | hrest
    · exact hstep.1 hfire.symm
    · exact hih.1 hrest

theorem fire_at_expiry (C t0 : ℚ) (k : AlertKind) (s : DispatchState)
    (i : DispatchInput)
    (hk : lastOf k s = t0) (htr : trigger_active k i)
    (hb : higher_blockers_inactive k i) (hlate : t0 + C < i.now) :
    (dispatch_step C s i).1 = some k := by
  cases k with
  | hardware =>
    simp only [trigger_active] at htr
    simp only [lastOf] at hk
    have hc : (i.is_shaking ∨ i.is_yelling) ∧ C < i.now - s.hardware_last_roast := by
      refine ⟨htr, ?_⟩
      rw [hk]
      linarith
    simp only [dispatch_step, if_pos hc]
  | left =>
    simp only [trigger_active] at htr
    simp only [higher_blockers_inactive] at hb
    simp only [lastOf] at hk
    have hhw : ¬((i.is_shaking ∨ i.is_yelling) ∧ C < i.now - s.hardware_last_roast) := by
      rintro ⟨hsh, -⟩
      exact hb hsh
    have hc : i.p1_emo = "angry" ∧ C < i.now - s.player_1_last_roast := by
      refine ⟨htr, ?_⟩
      rw [hk]
      linarith
    simp only [dispatch_step, if_neg hhw, if_pos hc]
  | right =>
    simp only [trigger_active] at htr
    simp only [higher_blockers_inactive] at hb
    simp only [lastOf] at hk
    have hhw : ¬((i.is_shaking ∨ i.is_yelling) ∧ C < i.now - s.hardware_last_roast) := by
      rintro ⟨hsh, -⟩
      exact hb.1 hsh
    have hp1 : ¬(i.p1_emo = "angry" ∧ C < i.now - s.player_1_last_roast) := by
      rintro ⟨hang, -⟩
      exact hb.2 hang
    have hc : i.p2_emo = "angry" ∧ C < i.now - s.player_2_last_roast := by
      refine ⟨htr, ?_⟩
      rw [hk]
      linarith
    simp only [dispatch_step, if_neg hhw, if_neg hp1, if_pos hc]

theorem dispatch_run_append (C : ℚ) : ∀ (s : DispatchState) (as bs : List DispatchInput),
    dispatch_run C s (as ++ bs) =
      ((dispatch_run C s as).1 ++ (dispatch_run C (dispatch_run C s as).2 bs).1,
        (dispatch_run C (dispatch_run C s as).2 bs).2) := by
  intro s as
  induction as generalizing s with
  | nil => intro bs; simp [dispatch_run]
  | cons a as ih =>
    intro bs
    simp only [List.cons_append, dispatch_run, List.append_eq]
    rw [ih]

/-- C2: in every dispatch iteration at most one alert fires, selected with
priority hardware over left over right (the four mutually exclusive cases
below are exhaustive); a hardware alert resets all three last-alert
timestamps to `now`; and after a hardware alert fires at `now`, no alert at
all — in particular no player alert for an angry detection — fires at any
iteration whose time lies in `[now, now + C)`. -/
theorem C2_dispatch_priority_and_reset (C : ℚ) (s : DispatchState) (i : DispatchInput) :
    (((i.is_shaking ∨ i.is_yelling) ∧ C < i.now - s.hardware_last_roast) →
      dispatch_step C s i = (some .hardware, ⟨i.now, i.now, i.now⟩)) ∧
    (¬((i.is_shaking ∨ i.is_yelling) ∧ C < i.now - s.hardware_last_roast) →
      (i.p1_emo = "angry" ∧ C < i.now - s.player_1_last_roast) →
      dispatch_step C s i = (some .left,
        { s with player_1_last_roast := i.now, hardware_last_roast := i.now })) ∧
    (¬((i.is_shaking ∨ i.is_yelling) ∧ C < i.now - s.hardware_last_roast) →
      ¬(i.p1_emo = "angry" ∧ C < i.now - s.player_1_last_roast) →
      (i.p2_emo = "angry" ∧ C < i.now - s.player_2_last_roast) →
      dispatch_step C s i = (some .right,
        { s with player_2_last_roast := i.now, hardware_last_roast := i.now })) ∧
    (¬((i.is_shaking ∨ i.is_yelling) ∧ C < i.now - s.hardware_last_roast) →
      ¬(i.p1_emo = "angry" ∧ C < i.now - s.player_1_last_roast) →
      ¬(i.p2_emo = "angry" ∧ C < i.now - s.player_2_last_roast) →
      dispatch_step C s i = (none, s)) ∧
    (((i.is_shaking ∨ i.is_yelling) ∧ C < i.now - s.hardware_last_roast) →
      ∀ (is : List DispatchInput),
        (∀ j ∈ is, i.now ≤ j.now ∧ j.now < i.now + C) →
        (dispatch_run C (dispatch_step C s i).2 is).1 =
          List.replicate is.length none) := by
  refine ⟨?_, ?_, ?_, ?_, ?_⟩
  · intro hc
    simp only [dispatch_step, if_pos hc]
  · intro hn1 hc
    simp only [dispatch_step, if_neg hn1, if_pos hc]
  · intro hn1 hn2 hc
    simp only [dispatch_step, if_neg hn1, if_neg hn2, if_pos hc]
  · intro hn1 hn2 hn3
    simp only [dispatch_step, if_neg hn1, if_neg hn2, if_neg hn3]
  · intro hc is hts
    have hpost : (dispatch_step C s i).2 = ⟨i.now, i.now, i.now⟩ := by
      simp only [dispatch_step, if_pos hc]
    rw [hpost]
    have := dispatch_run_none C i.now ⟨i.now, i.now, i.now⟩ is
      (le_refl _) (le_refl _) (le_refl _)
      (fun j hj => ⟨(hts j hj).1, le_of_lt (hts j hj).2⟩)
    rw [this]

/-- Witness for C2: with cooldown 10 a hardware alert fires at t = 100 and
resets all three timestamps to 100; an angry detection for both players at
t = 105 < 100 + 10 then fires nothing. -/
theorem C2_dispatch_priority_and_reset_witness :
    dispatch_step 10 ⟨0, 0, 0⟩ ⟨100, true, false, "neutral", "neutral"⟩ =
      (some .hardware, ⟨100, 100, 100⟩) ∧
    (dispatch_run 10
      (dispatch_step 10 ⟨0, 0, 0⟩ ⟨100, true, false, "neutral", "neutral"⟩).2
      [⟨105, false, false, "angry", "angry"⟩]).1 = List.replicate 1 none := by
  have h := C2_dispatch_priority_and_reset 10 ⟨0, 0, 0⟩
    ⟨100, true, false, "neutral", "neutral"⟩
  have hc : (((⟨100, true, false, "neutral", "neutral"⟩ : DispatchInput).is_shaking ∨
      (⟨100, true, false, "neutral", "neutral"⟩ : DispatchInput).is_yelling) ∧
      (10 : ℚ) < (⟨100, true, false, "neutral", "neutral"⟩ : DispatchInput).now -
        (⟨0, 0, 0⟩ : DispatchState).hardware_last_roast) := by
    refine ⟨Or.inl rfl, ?_⟩
    norm_num
  refine ⟨h.1 hc, ?_⟩
  refine h.2.2.2.2 hc [⟨105, false, false, "angry", "angry"⟩] ?_
  intro j hj
  rcases List.mem_singleton.1 hj with rfl
  constructor
  · norm_num
  · norm_num

/-- C6 counterexample: the cooldown comparison is strict
(`now − last > C`), so with a hardware alert having fired at t₀ = 0
(all timestamps 0), cooldown C = 10 and a continuing hardware trigger, the
first iteration at or after t₀ + C — here exactly at t = 10 — fires
NOTHING, contradicting the claim that exactly one alert of that kind fires
at the first iteration at or after t₀ + C. -/
theorem C6_counterexample_boundary :
    dispatch_step 10 ⟨0, 0, 0⟩ ⟨10, true, false, "neutral", "neutral"⟩ =
      (none, ⟨0, 0, 0⟩) ∧
    (dispatch_run 10 ⟨0, 0, 0⟩ [⟨10, true, false, "neutral", "neutral"⟩]).1 =
      [none] := by
  have hstep : dispatch_step 10 ⟨0, 0, 0⟩ ⟨10, true, false, "neutral", "neutral"⟩ =
      (none, ⟨0, 0, 0⟩) := by
    refine dispatch_step_none 10 0 ⟨0, 0, 0⟩ ⟨10, true, false, "neutral", "neutral"⟩
      (le_refl _) (le_refl _) (le_refl _) ⟨by norm_num, by norm_num⟩
  refine ⟨hstep, ?_⟩
  simp [dispatch_run, hstep]

/-- C6 amended: for a fixed cooldown C and any alert kind, (a) after the
kind's timestamp is at least t₀ (as it is right after an alert of that kind
fires at t₀), no alert of the same kind fires at any iteration whose time
lies in `[t₀, t₀ + C]` — the boundary `t₀ + C` included, because the
comparison is strict; and (b) starting from the post-alert state (own
timestamp t₀; for a hardware alert all three timestamps at least t₀), if no
higher-priority branch triggers during the window and the kind's trigger
holds at the first iteration strictly after t₀ + C, then no alert of the
kind fires during the window and exactly one fires, at that first late
iteration. -/
theorem C6_amended_cooldown_gate (C t0 : ℚ) (k : AlertKind) :
    (∀ (s : DispatchState) (is : List DispatchInput),
      t0 ≤ lastOf k s →
      (∀ j ∈ is, t0 ≤ j.now ∧ j.now ≤ t0 + C) →
      some k ∉ (dispatch_run C s is).1) ∧
    (∀ (s : DispatchState) (is1 : List DispatchInput) (i : DispatchInput),
      lastOf k s = t0 →
      (k = AlertKind.hardware →
        t0 ≤ s.player_1_last_roast ∧ t0 ≤ s.player_2_last_roast) →
      (∀ j ∈ is1, higher_blockers_inactive k j) →
      (∀ j ∈ is1, t0 ≤ j.now ∧ j.now ≤ t0 + C) →
      higher_blockers_inactive k i → trigger_active k i → t0 + C < i.now →
      some k ∉ (dispatch_run C s is1).1 ∧
      (dispatch_run C s (is1 ++ [i])).1 =
        (dispatch_run C s is1).1 ++ [some k]) := by
  constructor
  · exact fun s is hk hts => no_refire_in_window C t0 k s is hk hts
  · intro s is1 i hk hextra hbs hts hbi htri hlate
    have hq := quiet_window_run C t0 k s is1 hk hextra hbs hts
    refine ⟨hq.1, ?_⟩
    rw [dispatch_run_append]
    have hfire : (dispatch_step C (dispatch_run C s is1).2 i).1 = some k :=
      fire_at_expiry C t0 k (dispatch_run C s is1).2 i hq.2.1 htri hbi hlate
    simp [dispatch_run, hfire]

/-- Witness for the amended C6: hardware alert state at t₀ = 0, cooldown
10; an in-window iteration at t = 4 with the trigger held fires nothing,
and the first iteration strictly after t₀ + C, at t = 11, fires exactly the
one hardware alert. -/
theorem C6_amended_cooldown_gate_witness :
    some AlertKind.hardware ∉
      (dispatch_run 10 ⟨0, 0, 0⟩ [⟨4, true, false, "neutral", "neutral"⟩]).1 ∧
    (dispatch_run 10 ⟨0, 0, 0⟩
      [⟨4, true, false, "neutral", "neutral"⟩,
       ⟨11, true, false, "neutral", "neutral"⟩]).1 =
      (dispatch_run 10 ⟨0, 0, 0⟩ [⟨4, true, false, "neutral", "neutral"⟩]).1 ++
        [some AlertKind.hardware] := by
  have h := (C6_amended_cooldown_gate 10 0 AlertKind.hardware).2
    ⟨0, 0, 0⟩ [⟨4, true, false, "neutral", "neutral"⟩]
    ⟨11, true, false, "neutral", "neutral"⟩
    rfl (fun _ => ⟨le_refl _, le_refl _⟩)
    (fun j hj => trivial)
    (fun j hj => by
      rcases List.mem_singleton.1 hj with rfl
      exact ⟨by norm_num, by norm_num⟩)
    trivial (Or.inl rfl) (by norm_num)
  exact h

/-- Witness for the amended C10: with no face both values are `"unknown"`
and the state is untouched; with one face and a raising classifier, the
output is the smoothed pair for raw labels `("unknown", "unknown")`. -/
theorem C10_amended_total_and_failure_paths_witness :
    analyze_player_emotions 640 480 (fun _ => Except.error ())
      (fun _ => Except.error ()) (fun l => l)
      ⟨emotion_smoother_init, baseline_calibrator_init⟩ [] =
      (("unknown", "unknown"), ⟨emotion_smoother_init, baseline_calibrator_init⟩) ∧
    (analyze_player_emotions 640 480 (fun _ => Except.error ())
      (fun _ => Except.error ()) (fun l => l)
      ⟨emotion_smoother_init, baseline_calibrator_init⟩ [(100, 100, 50, 50)]).1 =
      (EmotionSmoother.update (fun l => l) emotion_smoother_init
        "unknown" "unknown").1 := by
  have h1 := C10_amended_total_and_failure_paths 640 480 (fun _ => Except.error ())
    (fun _ => Except.error ()) (fun l => l)
    ⟨emotion_smoother_init, baseline_calibrator_init⟩ []
  have h2 := C10_amended_total_and_failure_paths 640 480 (fun _ => Except.error ())
    (fun _ => Except.error ()) (fun l => l)
    ⟨emotion_smoother_init, baseline_calibrator_init⟩ [(100, 100, 50, 50)]
  exact ⟨h1.1 rfl, h2.2 (fun b => rfl) (by simp)⟩

end RageMeter
